import Mathlib

/-
Formal model of the Calendar MCP server scheduling core (server.py).

Timestamps are modelled as integer seconds of naive local time, matching the
second-precision ISO strings the server stores.  A calendar day is identified
by an integer day index d whose midnight is 86400 * d; Python's
`datetime.date()` on a naive timestamp is floor division by 86400, and
`replace(hour=9, ...)` on a midnight-of-day value is addition of the offset.
The process-wide mutable `EVENTS` list is passed explicitly as a `List Event`
and returned updated; `str(uuid.uuid4())[:8]` is modelled as an explicitly
supplied fresh-id argument, which keeps the functions deterministic.
-/

namespace CalendarMCP

/-- An event record as stored in the in-memory `EVENTS` list.  The field
`stop` is the source's `end` field (`end` is a reserved word in Lean). -/
structure Event where
  id : String
  title : String
  start : Int
  stop : Int
  attendees : List String
  created_by : String
deriving DecidableEq

/-- Day index of a timestamp: Python `datetime.date()` floors a naive
timestamp to its calendar day. -/
def dayOf (t : Int) : Int := Int.fdiv t 86400

/-- Midnight of day `d` (`datetime.fromisoformat(day)` for a date-only
string). -/
def midnight (d : Int) : Int := 86400 * d

/-- `work_start`: the day's midnight with `replace(hour=9, minute=0, second=0)`. -/
def workStart (d : Int) : Int := 86400 * d + 9 * 3600

/-- `work_end`: `work_start.replace(hour=17)`. -/
def workEnd (d : Int) : Int := 86400 * d + 17 * 3600

/-- Ordering of events by their `start` key, as used by
`sorted(..., key=lambda x: x["start"])` (for the canonical zero-padded ISO
strings the server stores, lexicographic string order coincides with
chronological order of the parsed timestamps). -/
def startLE (a b : Event) : Prop := a.start ≤ b.start

instance : DecidableRel startLE := fun a b => inferInstanceAs (Decidable (a.start ≤ b.start))

instance : IsTotal Event startLE := ⟨fun a b => Int.le_total a.start b.start⟩

instance : IsTrans Event startLE := ⟨fun _ _ _ hab hbc => Int.le_trans hab hbc⟩

/-- Python's `sorted` is a stable sort by the key; insertion sort with `≤` on
the key is the same stable sort. -/
def sortByStart (l : List Event) : List Event := List.insertionSort startLE l

/-- The `for e in evs:` loop of the `find_free_slot` branch (server.py
lines 101-107): walk the sorted events, `break` with a slot as soon as the gap
before the next event fits the duration, otherwise advance the cursor to
`max(cursor, e.end)`.  Returns the slot set by `break` (if any) together with
the final cursor value. -/
def findLoop (dur : Int) : List Event → Int → Option (Int × Int) × Int
  | [], cursor => (none, cursor)
  | e :: es, cursor =>
    if dur * 60 ≤ e.start - cursor then
      (some (cursor, cursor + dur * 60), cursor)
    else
      findLoop dur es (max cursor e.stop)

/-- The `find_free_slot` computation (server.py lines 97-110): filter the
store to events whose start date equals the requested day, sort them by
start, run the cursor loop from `work_start`, and if the loop set no slot,
check the tail gap up to `work_end`. -/
def find_free_slot (events : List Event) (d : Int) (dur : Int) : Option (Int × Int) :=
  let evs := sortByStart (events.filter (fun e => dayOf e.start == d))
  match findLoop dur evs (workStart d) with
  | (some slot, _) => some slot
  | (none, cursor) =>
    if dur * 60 ≤ workEnd d - cursor then some (cursor, cursor + dur * 60) else none

/-- Outcome of a JSON-RPC branch: a result payload or an error object. -/
inductive RPCResult (α : Type) where
  | ok : α → RPCResult α
  | err : Int → String → RPCResult α
deriving DecidableEq

/-- The `find_free_slot` JSON-RPC branch (server.py lines 92-110): a missing
`day` param is a -32602 error; a missing `duration_minutes` param defaults to
60 (`rpc.params.get("duration_minutes", 60)`); no validation of the duration
is performed. -/
def find_free_slot_rpc (events : List Event) (day : Option Int)
    (duration_minutes : Option Int) : RPCResult (Option (Int × Int)) :=
  let dur := duration_minutes.getD 60
  match day with
  | none => RPCResult.err (-32602) "Missing param day"
  | some d => RPCResult.ok (find_free_slot events d dur)

/-- The `get_events_for_day` filter (server.py line 89): events whose start is
at or after the day's midnight and before the next day's midnight. -/
def get_events_for_day (events : List Event) (d : Int) : List Event :=
  events.filter (fun e => decide (midnight d ≤ e.start) && decide (e.start < midnight (d + 1)))

/-- The `get_events_for_day` JSON-RPC branch (server.py lines 83-90). -/
def get_events_for_day_rpc (events : List Event) (day : Option Int) :
    RPCResult (List Event) :=
  match day with
  | none => RPCResult.err (-32602) "Missing param day"
  | some d => RPCResult.ok (get_events_for_day events d)

/-- Parameters of a `create_event` request; absent JSON keys are `none`.
The `start`/`stop` values are the (parsed) timestamps the request carries;
the server stores the raw values without any validation or comparison. -/
structure CreateParams where
  title : Option String := none
  start : Option Int := none
  stop : Option Int := none
  attendees : Option (List String) := none
  created_by : Option String := none

/-- The `create_event` JSON-RPC branch (server.py lines 112-128): reject only
when title, start or end is missing or falsy (for the title, the empty string
is falsy in `if not (title and start and end)`); otherwise build the new
event with the fresh id and append it to the store.  No `end > start` check
is performed. -/
def create_event (events : List Event) (p : CreateParams) (newId : String) :
    RPCResult (Event × List Event) :=
  match p.title, p.start, p.stop with
  | some t, some s, some e =>
    if t = "" then RPCResult.err (-32602) "Missing title/start/end"
    else
      let ev : Event := ⟨newId, t, s, e, p.attendees.getD [], p.created_by.getD "client"⟩
      RPCResult.ok (ev, events ++ [ev])
  | _, _, _ => RPCResult.err (-32602) "Missing title/start/end"

/-- The pydantic `BookRequest` model (server.py lines 142-146), with its
declared field defaults. -/
structure BookRequest where
  day : Int
  duration_minutes : Int := 60
  title : String := "Booked via UI"
  attendees : List String := []

/-- The `/api/book_and_confirm` handler (server.py lines 148-188), scheduling
part: run the same slot search as the JSON-RPC branch (the source duplicates
that code verbatim), raise a 404 error when no slot is found, otherwise
append the newly built event to the store.  The LLM confirmation text is an
external collaborator and carries no scheduling state. -/
def book_and_confirm (events : List Event) (req : BookRequest) (newId : String) :
    RPCResult (Event × List Event) :=
  match find_free_slot events req.day req.duration_minutes with
  | none => RPCResult.err 404 "No free slot found"
  | some (s, e) =>
    let ev : Event := ⟨newId, req.title, s, e, req.attendees, "ui"⟩
    RPCResult.ok (ev, events ++ [ev])

/-- Day index of 2025-10-22 (days since 1970-01-01). -/
def oct22 : Int := 20383

/-- Timestamp at hour `h`, minute `m` of day `d`. -/
def hm (d : Int) (h m : Int) : Int := 86400 * d + 3600 * h + 60 * m

/-- The initial demo `EVENTS` list (server.py lines 40-57). -/
def initialEvents : List Event :=
  [ ⟨"e1", "Weekly team sync", hm oct22 10 0, hm oct22 10 30, ["alice@example.com"], "system"⟩,
    ⟨"e2", "Project planning", hm oct22 15 0, hm oct22 16 0, ["bob@example.com"], "system"⟩ ]

/-- An event of day `d` in the sense of the slot search's filter
(`parse_iso(e["start"]).date() == work_start.date()`). -/
def onDay (ev : Event) (d : Int) : Prop := dayOf ev.start = d

instance (ev : Event) (d : Int) : Decidable (onDay ev d) :=
  inferInstanceAs (Decidable (dayOf ev.start = d))

/-- The slot `[s, e)` overlaps the event `ev` (they share an instant). -/
def overlaps (s e : Int) (ev : Event) : Prop := s < ev.stop ∧ ev.start < e

instance (s e : Int) (ev : Event) : Decidable (overlaps s e ev) :=
  inferInstanceAs (Decidable (s < ev.stop ∧ ev.start < e))

/-- Specification-side notion of a valid free-slot start for day `d` and
duration `dur` minutes against a store: the slot of that duration starting at
`t` lies within the working window and overlaps no event of the day. -/
def isValidStart (events : List Event) (d dur t : Int) : Prop :=
  workStart d ≤ t ∧ t + dur * 60 ≤ workEnd d ∧
    ∀ ev ∈ events, onDay ev d → ¬ overlaps t (t + dur * 60) ev

instance (events : List Event) (d dur t : Int) : Decidable (isValidStart events d dur t) := by
  unfold isValidStart
  infer_instance

theorem sorted_sortByStart (l : List Event) : List.Sorted startLE (sortByStart l) :=
  List.sorted_insertionSort startLE l

theorem mem_dayFilter (events : List Event) (d : Int) (ev : Event) :
    ev ∈ sortByStart (events.filter (fun e => dayOf e.start == d)) ↔
      ev ∈ events ∧ onDay ev d := by
  unfold sortByStart
  rw [List.mem_insertionSort, List.mem_filter]
  simp [onDay]

theorem findLoop_none_spec (dur : Int) (l : List Event) (cursor c2 : Int)
    (h : findLoop dur l cursor = (none, c2)) :
    cursor ≤ c2 ∧ ∀ ev ∈ l, ev.stop ≤ c2 := by
  induction l generalizing cursor with
  | nil =>
    simp only [findLoop, Prod.mk.injEq] at h
    obtain ⟨-, rfl⟩ := h
    exact ⟨le_refl _, by simp⟩
  | cons a as ih =>
    simp only [findLoop] at h
    split at h
    · simp at h
    · obtain ⟨hc, hall⟩ := ih (max cursor a.stop) h
      refine ⟨le_trans (le_max_left _ _) hc, ?_⟩
      intro ev hev
      rcases List.mem_cons.mp hev with rfl | hev
      · exact le_trans (le_max_right _ _) hc
      · exact hall ev hev

theorem findLoop_some_spec (dur : Int) (l : List Event) (cursor s e c2 : Int)
    (hsort : List.Sorted startLE l)
    (h : findLoop dur l cursor = (some (s, e), c2)) :
    cursor ≤ s ∧ e = s + dur * 60 ∧ (∀ ev ∈ l, ev.stop ≤ s ∨ e ≤ ev.start) ∧
      ∃ ev ∈ l, e ≤ ev.start := by
  induction l generalizing cursor with
  | nil => simp [findLoop] at h
  | cons a as ih =>
    simp only [findLoop] at h
    split at h
    case isTrue hgap =>
      simp only [Prod.mk.injEq, Option.some.injEq] at h
      obtain ⟨⟨rfl, rfl⟩, -⟩ := h
      refine ⟨le_refl _, rfl, ?_, ⟨a, List.mem_cons_self a as, by omega⟩⟩
      intro ev hev
      rcases List.mem_cons.mp hev with rfl | hev
      · exact Or.inr (by omega)
      · have hrel : startLE a ev := List.rel_of_sorted_cons hsort ev hev
        unfold startLE at hrel
        exact Or.inr (by omega)
    case isFalse hgap =>
      obtain ⟨hc, he, hall, ev0, hev0, hle0⟩ := ih (max cursor a.stop) hsort.of_cons h
      refine ⟨le_trans (le_max_left _ _) hc, he, ?_,
        ⟨ev0, List.mem_cons_of_mem a hev0, hle0⟩⟩
      intro ev hev
      rcases List.mem_cons.mp hev with rfl | hev
      · exact Or.inl (le_trans (le_max_right _ _) hc)
      · exact hall ev hev

theorem findLoop_min_some (dur : Int) (l : List Event) (cursor t s e c2 : Int)
    (hct : cursor ≤ t)
    (hfree : ∀ ev ∈ l, ev.stop ≤ t ∨ t + dur * 60 ≤ ev.start)
    (h : findLoop dur l cursor = (some (s, e), c2)) : s ≤ t := by
  induction l generalizing cursor with
  | nil => simp [findLoop] at h
  | cons a as ih =>
    simp only [findLoop] at h
    split at h
    case isTrue hgap =>
      simp only [Prod.mk.injEq, Option.some.injEq] at h
      obtain ⟨⟨rfl, -⟩, -⟩ := h
      exact hct
    case isFalse hgap =>
      have ha := hfree a (List.mem_cons_self a as)
      have hstop : a.stop ≤ t := by
        rcases ha with h1 | h1
        · exact h1
        · omega
      exact ih (max cursor a.stop) (max_le hct hstop)
        (fun ev hev => hfree ev (List.mem_cons_of_mem a hev)) h

theorem findLoop_min_none (dur : Int) (l : List Event) (cursor t c2 : Int)
    (hct : cursor ≤ t)
    (hfree : ∀ ev ∈ l, ev.stop ≤ t ∨ t + dur * 60 ≤ ev.start)
    (h : findLoop dur l cursor = (none, c2)) : c2 ≤ t := by
  induction l generalizing cursor with
  | nil =>
    simp only [findLoop, Prod.mk.injEq] at h
    obtain ⟨-, rfl⟩ := h
    exact hct
  | cons a as ih =>
    simp only [findLoop] at h
    split at h
    · simp at h
    case isFalse hgap =>
      have ha := hfree a (List.mem_cons_self a as)
      have hstop : a.stop ≤ t := by
        rcases ha with h1 | h1
        · exact h1
        · omega
      exact ih (max cursor a.stop) (max_le hct hstop)
        (fun ev hev => hfree ev (List.mem_cons_of_mem a hev)) h

theorem validStart_free (events : List Event) (d dur t : Int)
    (hfree : ∀ ev ∈ events, onDay ev d → ¬ overlaps t (t + dur * 60) ev) :
    ∀ ev ∈ sortByStart (events.filter (fun e => dayOf e.start == d)),
      ev.stop ≤ t ∨ t + dur * 60 ≤ ev.start := by
  intro ev hev
  obtain ⟨hmem, hday⟩ := (mem_dayFilter events d ev).mp hev
  have hno := hfree ev hmem hday
  unfold overlaps at hno
  omega

/-- Soundness of the slot search: any returned slot starts at or after
`work_start`, has length exactly `dur` minutes, touches no event of the day,
and either ends by `work_end` or ends at or before the start of some event of
the day (the latter is what the `break` case guarantees). -/
theorem find_free_slot_sound (events : List Event) (d dur s e : Int)
    (h : find_free_slot events d dur = some (s, e)) :
    workStart d ≤ s ∧ e = s + dur * 60 ∧
      (∀ ev ∈ events, onDay ev d → (ev.stop ≤ s ∨ e ≤ ev.start)) ∧
      (e ≤ workEnd d ∨ ∃ ev ∈ events, onDay ev d ∧ e ≤ ev.start) := by
  simp only [find_free_slot] at h
  split at h
  · rename_i slot c2 hloop
    rw [Option.some.injEq] at h
    subst h
    obtain ⟨hc, he, hall, ev0, hev0, hle0⟩ :=
      findLoop_some_spec dur _ (workStart d) s e c2 (sorted_sortByStart _) hloop
    obtain ⟨hmem0, hday0⟩ := (mem_dayFilter events d ev0).mp hev0
    refine ⟨hc, he, ?_, Or.inr ⟨ev0, hmem0, hday0, hle0⟩⟩
    intro ev hmem hday
    exact hall ev ((mem_dayFilter events d ev).mpr ⟨hmem, hday⟩)
  · rename_i c2 hloop
    obtain ⟨hc, hall⟩ := findLoop_none_spec dur _ (workStart d) c2 hloop
    split at h
    · rename_i hfits
      rw [Option.some.injEq, Prod.mk.injEq] at h
      obtain ⟨rfl, rfl⟩ := h
      refine ⟨hc, rfl, ?_, Or.inl (by omega)⟩
      intro ev hmem hday
      exact Or.inl (hall ev ((mem_dayFilter events d ev).mpr ⟨hmem, hday⟩))
    · exact absurd h (by simp)

/-- Minimality of the slot search: the start of any returned slot is at most
any valid free-slot start. -/
theorem find_free_slot_min (events : List Event) (d dur t s e : Int)
    (hvalid : isValidStart events d dur t)
    (h : find_free_slot events d dur = some (s, e)) : s ≤ t := by
  obtain ⟨hw1, hw2, hfree⟩ := hvalid
  have hfree2 := validStart_free events d dur t hfree
  simp only [find_free_slot] at h
  split at h
  · rename_i slot c2 hloop
    rw [Option.some.injEq] at h
    subst h
    exact findLoop_min_some dur _ (workStart d) t s e c2 hw1 hfree2 hloop
  · rename_i c2 hloop
    have hc2 : c2 ≤ t := findLoop_min_none dur _ (workStart d) t c2 hw1 hfree2 hloop
    split at h
    · rw [Option.some.injEq, Prod.mk.injEq] at h
      omega
    · exact absurd h (by simp)

/-- Completeness of the slot search: if some valid free-slot start exists,
the search returns a slot. -/
theorem find_free_slot_exists (events : List Event) (d dur t : Int)
    (hvalid : isValidStart events d dur t) :
    ∃ s e, find_free_slot events d dur = some (s, e) := by
  obtain ⟨hw1, hw2, hfree⟩ := hvalid
  have hfree2 := validStart_free events d dur t hfree
  rcases hloop : findLoop dur (sortByStart (events.filter (fun e => dayOf e.start == d)))
      (workStart d) with ⟨res, c2⟩
  cases res with
  | some slot =>
    refine ⟨slot.1, slot.2, ?_⟩
    simp only [find_free_slot]
    rw [hloop]
  | none =>
    have hc2 : c2 ≤ t := findLoop_min_none dur _ (workStart d) t c2 hw1 hfree2 hloop
    refine ⟨c2, c2 + dur * 60, ?_⟩
    simp only [find_free_slot]
    rw [hloop]
    show (if dur * 60 ≤ workEnd d - c2 then some (c2, c2 + dur * 60) else none) =
      some (c2, c2 + dur * 60)
    rw [if_pos (by unfold workEnd at hw2 ⊢; omega)]

/-- A store with a single event of day 0 that starts after the working
window (18:00-19:00).  The filter of `find_free_slot` keeps it, so the gap
check against its start can hand out a slot that runs past `work_end`. -/
def lateEvents : List Event :=
  [⟨"x1", "Evening call", hm 0 18 0, hm 0 19 0, [], "system"⟩]

/-- C1 (counterexample): with a single existing event 18:00-19:00 on day 0
and a requested duration of 500 minutes, `find_free_slot` returns the slot
09:00-17:20 (seconds 32400 to 62400), whose end lies strictly after
`workEnd` (17:00, second 61200).  So the returned slot does not always lie
fully within the working window, refuting the claim as stated. -/
theorem C1_counterexample :
    find_free_slot lateEvents 0 500 = some (32400, 62400) ∧ workEnd 0 < 62400 := by
  decide

/-- C1 (amended): any slot returned by `find_free_slot` overlaps no existing
event of the requested day and starts at or after `workStart`; it also ends
at or before `workEnd` provided that no event of that day starts after
`workEnd`. -/
theorem C1_amended (events : List Event) (d dur s e : Int)
    (h : find_free_slot events d dur = some (s, e)) :
    (∀ ev ∈ events, onDay ev d → ¬ overlaps s e ev) ∧
      workStart d ≤ s ∧
      ((∀ ev ∈ events, onDay ev d → ev.start ≤ workEnd d) → e ≤ workEnd d) := by
  obtain ⟨h1, h2, h3, h4⟩ := find_free_slot_sound events d dur s e h
  refine ⟨?_, h1, ?_⟩
  · intro ev hmem hday
    have := h3 ev hmem hday
    unfold overlaps
    omega
  · intro hbound
    rcases h4 with h4 | ⟨ev0, hmem0, hday0, hle0⟩
    · exact h4
    · exact le_trans hle0 (hbound ev0 hmem0 hday0)

/-- C1 (witness for the amended theorem): on the demo store for day
2025-10-22 with duration 60, `find_free_slot` returns the 09:00-10:00 slot,
and the amended theorem applies to it. -/
theorem C1_amended_witness :
    find_free_slot initialEvents oct22 60 = some (hm oct22 9 0, hm oct22 10 0) ∧
      ((∀ ev ∈ initialEvents, onDay ev oct22 →
          ¬ overlaps (hm oct22 9 0) (hm oct22 10 0) ev) ∧
        workStart oct22 ≤ hm oct22 9 0 ∧
        ((∀ ev ∈ initialEvents, onDay ev oct22 → ev.start ≤ workEnd oct22) →
          hm oct22 10 0 ≤ workEnd oct22)) :=
  ⟨by decide, C1_amended initialEvents oct22 60 (hm oct22 9 0) (hm oct22 10 0) (by decide)⟩

/-- C2 (counterexample): with a single existing event 18:00-19:00 on day 0
and duration 500, `find_free_slot` returns a slot starting at 32400, yet
32400 is not a valid free-slot start (the slot would end after `workEnd`);
indeed the set of valid free-slot starts is empty here, so the returned
start is not the minimum of that set, refuting the claim as stated. -/
theorem C2_counterexample :
    find_free_slot lateEvents 0 500 = some (32400, 62400) ∧
      (0:Int) < 500 ∧ ¬ isValidStart lateEvents 0 500 32400 := by
  decide

/-- C2 (amended): whenever at least one valid free slot of the requested
duration exists (within the working window, overlapping no event of the
day), `find_free_slot` returns a slot; the returned slot is exactly `dur`
minutes long, is itself valid, and its start is the minimum of all valid
free-slot starts. -/
theorem C2_amended (events : List Event) (d dur t : Int)
    (hvalid : isValidStart events d dur t) :
    ∃ s, find_free_slot events d dur = some (s, s + dur * 60) ∧
      isValidStart events d dur s ∧
      ∀ u, isValidStart events d dur u → s ≤ u := by
  obtain ⟨s, e, hfind⟩ := find_free_slot_exists events d dur t hvalid
  obtain ⟨h1, h2, h3, h4⟩ := find_free_slot_sound events d dur s e hfind
  subst h2
  have hst : s ≤ t := find_free_slot_min events d dur t s _ hvalid hfind
  refine ⟨s, hfind, ⟨h1, ?_, ?_⟩, fun u hu => find_free_slot_min events d dur u s _ hu hfind⟩
  · obtain ⟨-, hw2, -⟩ := hvalid
    omega
  · intro ev hmem hday
    have := h3 ev hmem hday
    unfold overlaps
    omega

/-- C2 (witness for the amended theorem): on the demo store for day
2025-10-22, 09:00 is a valid 60-minute free-slot start, so the search
returns a slot of exactly 60 minutes whose start is the least valid one. -/
theorem C2_amended_witness :
    isValidStart initialEvents oct22 60 (hm oct22 9 0) ∧
      ∃ s, find_free_slot initialEvents oct22 60 = some (s, s + 60 * 60) ∧
        isValidStart initialEvents oct22 60 s ∧
        ∀ u, isValidStart initialEvents oct22 60 u → s ≤ u :=
  ⟨by decide, C2_amended initialEvents oct22 60 (hm oct22 9 0) (by decide)⟩

/-- C3 (confirmed): on the demo store (events 10:00-10:30 and 15:00-16:00 of
2025-10-22) with duration 60, `find_free_slot` returns the slot
09:00-10:00 of 2025-10-22: the gap before the first event is exactly 60
minutes, so it is taken. -/
theorem C3_concrete_case :
    find_free_slot initialEvents oct22 60 = some (hm oct22 9 0, hm oct22 10 0) := by
  decide

/-- C4 (code evidence): a request with `duration_minutes = 0` is not
rejected: the branch answers with a result object containing the degenerate
slot 09:00-09:00, and with `duration_minutes = -30` it answers with the
inverted slot 09:00-08:30.  No `InvalidArgument` validation of the duration
exists in the code. -/
theorem C4_code_behavior :
    find_free_slot_rpc initialEvents (some oct22) (some 0) =
      RPCResult.ok (some (hm oct22 9 0, hm oct22 9 0)) ∧
    find_free_slot_rpc initialEvents (some oct22) (some (-30)) =
      RPCResult.ok (some (hm oct22 9 0, hm oct22 8 30)) := by
  decide

/-- Parameters of a `create_event` request whose end equals its start. -/
def zeroLenParams : CreateParams :=
  { title := some "Standup", start := some (hm oct22 10 0), stop := some (hm oct22 10 0) }

/-- The event the server builds and stores for `zeroLenParams`. -/
def zeroLenEvent : Event :=
  ⟨"deadbeef", "Standup", hm oct22 10 0, hm oct22 10 0, [], "client"⟩

/-- C5 (code evidence): a `create_event` request with `end = start` is not
rejected: the event is appended to the store and returned as the result,
so the store no longer satisfies the end-after-start invariant.  The code
performs no `end > start` validation at all. -/
theorem C5_code_behavior :
    create_event initialEvents zeroLenParams "deadbeef" =
      RPCResult.ok (zeroLenEvent, initialEvents ++ [zeroLenEvent]) ∧
    zeroLenEvent.stop = zeroLenEvent.start := by
  exact ⟨rfl, rfl⟩

/-- C6 (confirmed): for any positive duration and any store with no event on
the requested day, the `find_free_slot` branch returns (as a result, never
as an error) the slot `[workStart, workStart + dur)` when the duration fits
the 480-minute working window, and the null result otherwise. -/
theorem C6_empty_day (events : List Event) (d dur : Int)
    (hpos : 0 < dur) (hempty : ∀ ev ∈ events, ¬ onDay ev d) :
    find_free_slot_rpc events (some d) (some dur) =
      RPCResult.ok (if dur ≤ 480 then some (workStart d, workStart d + dur * 60) else none) := by
  have hfilter : events.filter (fun e => dayOf e.start == d) = [] := by
    rw [List.filter_eq_nil_iff]
    intro ev hev
    simpa [onDay] using hempty ev hev
  have hcore : find_free_slot events d dur =
      if dur ≤ 480 then some (workStart d, workStart d + dur * 60) else none := by
    simp only [find_free_slot, hfilter, sortByStart, List.insertionSort, findLoop]
    by_cases hc : dur ≤ 480
    · rw [if_pos (by unfold workStart workEnd; omega), if_pos hc]
    · rw [if_neg (by unfold workStart workEnd; omega), if_neg hc]
  show RPCResult.ok (find_free_slot events d dur) = _
  rw [hcore]

/-- C6 (witness): the demo store has no event on day 5, and a 60-minute
request for that day yields the 09:00-10:00 slot as a result. -/
theorem C6_empty_day_witness :
    (0:Int) < 60 ∧ (∀ ev ∈ initialEvents, ¬ onDay ev 5) ∧
      find_free_slot_rpc initialEvents (some 5) (some 60) =
        RPCResult.ok
          (if (60:Int) ≤ 480 then some (workStart 5, workStart 5 + 60 * 60) else none) :=
  ⟨by decide, by decide, C6_empty_day initialEvents 5 60 (by decide) (by decide)⟩

/-- C7 (confirmed): for any day, the `get_events_for_day` branch answers
with a result (never an error) holding exactly the stored events whose start
is at or after the day's midnight and before the next day's midnight, and a
day with no matching event yields the empty list. -/
theorem C7_events_for_day (events : List Event) (d : Int) :
    (∀ ev, ev ∈ get_events_for_day events d ↔
        ev ∈ events ∧ midnight d ≤ ev.start ∧ ev.start < midnight (d + 1)) ∧
      get_events_for_day_rpc events (some d) = RPCResult.ok (get_events_for_day events d) ∧
      ((∀ ev ∈ events, ¬ (midnight d ≤ ev.start ∧ ev.start < midnight (d + 1))) →
        get_events_for_day events d = []) := by
  refine ⟨fun ev => ?_, rfl, fun hnone => ?_⟩
  · simp [get_events_for_day, List.mem_filter, and_assoc]
  · simp only [get_events_for_day]
    rw [List.filter_eq_nil_iff]
    intro ev hev
    simpa using hnone ev hev

/-- C7 (witness): instantiated on the demo store and day 2025-10-22, the
first demo event is reported for its day, and day 5 (which has no events)
yields the empty list. -/
theorem C7_events_for_day_witness :
    (⟨"e1", "Weekly team sync", hm oct22 10 0, hm oct22 10 30, ["alice@example.com"],
        "system"⟩ : Event) ∈ get_events_for_day initialEvents oct22 ∧
      get_events_for_day initialEvents 5 = [] := by
  refine ⟨((C7_events_for_day initialEvents oct22).1 _).mpr (by decide), ?_⟩
  exact (C7_events_for_day initialEvents 5).2.2 (by decide)

/-- C9 (confirmed): a `find_free_slot` request without `duration_minutes`
does not fail; it is answered exactly like a request with
`duration_minutes = 60`, because of `params.get("duration_minutes", 60)`;
likewise a `BookRequest` built with only a day carries the pydantic field
default of 60 minutes. -/
theorem C9_default_duration (events : List Event) (d : Int) :
    find_free_slot_rpc events (some d) none = RPCResult.ok (find_free_slot events d 60) ∧
      find_free_slot_rpc events (some d) none = find_free_slot_rpc events (some d) (some 60) ∧
      ({ day := d } : BookRequest).duration_minutes = 60 :=
  ⟨rfl, rfl, rfl⟩

/-- C9 (witness): the default-duration equalities instantiated on the demo
store and day 2025-10-22. -/
theorem C9_default_duration_witness :
    find_free_slot_rpc initialEvents (some oct22) none =
        RPCResult.ok (find_free_slot initialEvents oct22 60) ∧
      find_free_slot_rpc initialEvents (some oct22) none =
        find_free_slot_rpc initialEvents (some oct22) (some 60) ∧
      ({ day := oct22 } : BookRequest).duration_minutes = 60 :=
  C9_default_duration initialEvents oct22

/-- C10 (confirmed): every successful `create_event` and every successful
`book_and_confirm` leaves the previously stored events untouched and makes
the new store the old list with the single new event appended at its end. -/
theorem C10_insert_appends (events : List Event) (newId : String) (p : CreateParams)
    (req : BookRequest) (ev1 ev2 : Event) (st1 st2 : List Event)
    (h1 : create_event events p newId = RPCResult.ok (ev1, st1))
    (h2 : book_and_confirm events req newId = RPCResult.ok (ev2, st2)) :
    st1 = events ++ [ev1] ∧ st2 = events ++ [ev2] := by
  constructor
  · simp only [create_event] at h1
    split at h1
    · split at h1
      · exact absurd h1 (by simp)
      · rw [RPCResult.ok.injEq, Prod.mk.injEq] at h1
        obtain ⟨rfl, h1b⟩ := h1
        exact h1b.symm
    · exact absurd h1 (by simp)
  · simp only [book_and_confirm] at h2
    split at h2
    · exact absurd h2 (by simp)
    · rw [RPCResult.ok.injEq, Prod.mk.injEq] at h2
      obtain ⟨rfl, h2b⟩ := h2
      exact h2b.symm

/-- The event created by the witness `create_event` call below. -/
def witEv1 : Event := ⟨"id1", "Standup", hm oct22 10 0, hm oct22 10 0, [], "client"⟩

/-- The event created by the witness `book_and_confirm` call below. -/
def witEv2 : Event := ⟨"id1", "Booked via UI", workStart 0, workStart 0 + 60 * 60, [], "ui"⟩

/-- C10 (witness): starting from an empty store, a `create_event` call and a
`book_and_confirm` call each succeed and each produce the store holding
exactly the one new event appended. -/
theorem C10_insert_appends_witness :
    create_event [] zeroLenParams "id1" = RPCResult.ok (witEv1, [witEv1]) ∧
      book_and_confirm [] { day := 0 } "id1" = RPCResult.ok (witEv2, [witEv2]) ∧
      ([witEv1] = [] ++ [witEv1] ∧ [witEv2] = [] ++ [witEv2]) :=
  ⟨by decide, by decide,
    C10_insert_appends [] "id1" zeroLenParams { day := 0 } witEv1 witEv2 [witEv1] [witEv2]
      (by decide) (by decide)⟩

end CalendarMCP
